import Mathlib

/-!
Shallow embedding of the `model_testing` repository (an authentication toy
service with an in-memory store, a fault-injecting storage decorator and a
simulation test harness), used to check the natural-language specification
against the code.

Strings are embedded as lists of Unicode scalar values (`List Nat`); bytes are
`Nat` values below 256.  Rust's `HashMap`/`HashSet` are embedded as association
lists / lists; the arbitrary iteration order of `HashMap::keys().next()` is
determinized to the first element of the association list.
-/

set_option maxHeartbeats 1000000

namespace ModelTesting

/-- Validity of a Unicode scalar value: everything below 0x110000 except the
surrogate range, exactly the values a Rust `char` can hold.  A Rust `String`
is embedded as a `List Nat` all of whose members satisfy this. -/
def isValidScalar (c : Nat) : Prop := c < 0xD800 ∨ (0xE000 ≤ c ∧ c < 0x110000)

instance (c : Nat) : Decidable (isValidScalar c) := by
  unfold isValidScalar; infer_instance

/-- A Rust `String`, embedded: a list of valid Unicode scalar values. -/
def ScalarString (s : List Nat) : Prop := ∀ c ∈ s, isValidScalar c

instance (s : List Nat) : Decidable (ScalarString s) := by
  unfold ScalarString; infer_instance

/-- A control character in the sense of Rust `char::is_control` (Unicode
category Cc): U+0000–U+001F and U+007F–U+009F. -/
def isControl (c : Nat) : Prop := c < 0x20 ∨ (0x7F ≤ c ∧ c ≤ 0x9F)

instance (c : Nat) : Decidable (isControl c) := by
  unfold isControl; infer_instance

/-- UTF-8 encoding of one Unicode scalar value, as in Rust's `String`
representation (`str` bytes). -/
def utf8EncodeChar (c : Nat) : List Nat :=
  if c < 0x80 then [c]
  else if c < 0x800 then [0xC0 + c / 64, 0x80 + c % 64]
  else if c < 0x10000 then
    [0xE0 + c / 4096, 0x80 + c / 64 % 64, 0x80 + c % 64]
  else
    [0xF0 + c / 262144, 0x80 + c / 4096 % 64, 0x80 + c / 64 % 64, 0x80 + c % 64]

/-- UTF-8 encoding of a whole string (Rust `str::as_bytes` composed with the
string's construction). -/
def utf8Encode : List Nat → List Nat
  | [] => []
  | c :: rest => utf8EncodeChar c ++ utf8Encode rest

/-- Decoding of one UTF-8 scalar from the front of a byte list, with full
validation as in Rust's `String::from_utf8`: rejects overlong forms,
surrogates, values above 0x10FFFF, stray continuation bytes and truncated
sequences.  Returns the scalar and the remaining bytes. -/
def utf8DecodeOne : List Nat → Option (Nat × List Nat)
  | [] => none
  | b0 :: rest =>
    if b0 < 0x80 then some (b0, rest)
    else if b0 < 0xC2 then none
    else if b0 < 0xE0 then
      match rest with
      | b1 :: rest1 =>
        if 0x80 ≤ b1 ∧ b1 < 0xC0 then
          some ((b0 - 0xC0) * 64 + (b1 - 0x80), rest1)
        else none
      | [] => none
    else if b0 < 0xF0 then
      match rest with
      | b1 :: b2 :: rest2 =>
        if (0x80 ≤ b1 ∧ b1 < 0xC0) ∧ (0x80 ≤ b2 ∧ b2 < 0xC0) ∧
            0x800 ≤ (b0 - 0xE0) * 4096 + (b1 - 0x80) * 64 + (b2 - 0x80) ∧
            ¬ (0xD800 ≤ (b0 - 0xE0) * 4096 + (b1 - 0x80) * 64 + (b2 - 0x80) ∧
                (b0 - 0xE0) * 4096 + (b1 - 0x80) * 64 + (b2 - 0x80) < 0xE000) then
          some ((b0 - 0xE0) * 4096 + (b1 - 0x80) * 64 + (b2 - 0x80), rest2)
        else none
      | _ => none
    else if b0 < 0xF5 then
      match rest with
      | b1 :: b2 :: b3 :: rest3 =>
        if (0x80 ≤ b1 ∧ b1 < 0xC0) ∧ (0x80 ≤ b2 ∧ b2 < 0xC0) ∧
            (0x80 ≤ b3 ∧ b3 < 0xC0) ∧
            0x10000 ≤ (b0 - 0xF0) * 262144 + (b1 - 0x80) * 4096 +
              (b2 - 0x80) * 64 + (b3 - 0x80) ∧
            (b0 - 0xF0) * 262144 + (b1 - 0x80) * 4096 +
              (b2 - 0x80) * 64 + (b3 - 0x80) < 0x110000 then
          some ((b0 - 0xF0) * 262144 + (b1 - 0x80) * 4096 +
            (b2 - 0x80) * 64 + (b3 - 0x80), rest3)
        else none
      | _ => none
    else none

/-- Iterated scalar decoding with explicit fuel (each step consumes at least
one byte, so fuel equal to the byte count never runs out; the fuel only makes
the recursion structural). -/
def utf8DecodeLoop : Nat → List Nat → Option (List Nat)
  | _, [] => some []
  | 0, _ :: _ => none
  | fuel + 1, b0 :: rest =>
    match utf8DecodeOne (b0 :: rest) with
    | some (c, remaining) => (utf8DecodeLoop fuel remaining).map (c :: ·)
    | none => none

/-- UTF-8 decoding of a whole byte list (Rust's `String::from_utf8`, giving
the string's scalar values). -/
def utf8Decode (l : List Nat) : Option (List Nat) :=
  utf8DecodeLoop l.length l

/-- The base64 alphabet of `base64::encode` (standard alphabet): 6-bit value
to ASCII code. -/
def b64Char (n : Nat) : Nat :=
  if n < 26 then 65 + n
  else if n < 52 then 97 + (n - 26)
  else if n < 62 then 48 + (n - 52)
  else if n = 62 then 43
  else 47

/-- Inverse alphabet lookup used by `base64::decode`. -/
def b64Index (c : Nat) : Option Nat :=
  if 65 ≤ c ∧ c ≤ 90 then some (c - 65)
  else if 97 ≤ c ∧ c ≤ 122 then some (c - 97 + 26)
  else if 48 ≤ c ∧ c ≤ 57 then some (c - 48 + 52)
  else if c = 43 then some 62
  else if c = 47 then some 63
  else none

/-- Standard padded base64 encoding of a byte list (Rust `base64::encode`):
groups of three bytes become four alphabet characters, with `=` (ASCII 61)
padding for a 1- or 2-byte tail. -/
def b64Encode : List Nat → List Nat
  | [] => []
  | [a] => [b64Char (a / 4), b64Char (a % 4 * 16), 61, 61]
  | [a, b] =>
    [b64Char (a / 4), b64Char (a % 4 * 16 + b / 16), b64Char (b % 16 * 4), 61]
  | a :: b :: c :: rest =>
    b64Char (a / 4) :: b64Char (a % 4 * 16 + b / 16) ::
      b64Char (b % 16 * 4 + c / 64) :: b64Char (c % 64) :: b64Encode rest

/-- Base64 decoding of a padded string (Rust `base64::decode` with the
standard, padded configuration): consumes four characters at a time, accepts
`=` padding only at the end and rejects non-zero trailing bits. -/
def b64Decode : List Nat → Option (List Nat)
  | [] => some []
  | c0 :: c1 :: c2 :: c3 :: rest =>
    (b64Index c0).bind fun i0 =>
    (b64Index c1).bind fun i1 =>
    if c2 = 61 then
      if c3 = 61 ∧ rest = [] ∧ i1 % 16 = 0 then some [i0 * 4 + i1 / 16]
      else none
    else
      (b64Index c2).bind fun i2 =>
      if c3 = 61 then
        if rest = [] ∧ i2 % 4 = 0 then
          some [i0 * 4 + i1 / 16, i1 % 16 * 16 + i2 / 4]
        else none
      else
        (b64Index c3).bind fun i3 =>
        (b64Decode rest).map fun bs =>
          (i0 * 4 + i1 / 16) :: (i1 % 16 * 16 + i2 / 4) :: (i2 % 4 * 64 + i3) :: bs
  | _ => none

/-- Splitting a string at the FIRST colon, as Rust's
`auth.splitn(2, ':').collect::<Vec<_>>()` when it yields exactly two parts;
`none` when the string has no colon (the `splitn` result has one part and the
`match` in `parse_auth` falls through to `MalformedHeader`). -/
def splitFirstColon : List Nat → Option (List Nat × List Nat)
  | [] => none
  | c :: rest =>
    if c = 58 then some ([], rest)
    else
      match splitFirstColon rest with
      | some (u, p) => some (c :: u, p)
      | none => none

/-- Error type of `parse_auth` in `src/domain.rs`. -/
inductive ParseAuthError
  | MalformedHeader
  | Utf8Error
  deriving DecidableEq

/-- The scalar values of the literal `"Basic "`. -/
def BASIC : List Nat := [66, 97, 115, 105, 99, 32]

/-- Embedding of `parse_auth` (`src/domain.rs`): checks the `"Basic "` scheme
tag, base64-decodes the remainder, UTF-8-decodes the bytes, and splits the
result at the first colon into `(user_id, entered_password)`. -/
def parse_auth (header : List Nat) :
    Except ParseAuthError (List Nat × List Nat) :=
  if header.take 6 = BASIC then
    match b64Decode (header.drop 6) with
    | some bytes =>
      match utf8Decode bytes with
      | some auth =>
        match splitFirstColon auth with
        | some (u, p) => .ok (u, p)
        | none => .error .MalformedHeader
      | none => .error .Utf8Error
    | none => .error .MalformedHeader
  else .error .MalformedHeader

/-- Embedding of the `auth_header` test helper
(`format!("Basic {}", base64::encode(format!("{}:{}", user, pass)))`),
used by both test suites to build a token for a (user, password) pair. -/
def auth_header (user pass : List Nat) : List Nat :=
  BASIC ++ b64Encode (utf8Encode (user ++ 58 :: pass))

/-- Embedding of `EncodedPassword` (an argon2 hash string).  The hash is
modelled abstractly as the pair of the hashed secret and the salt drawn at
encoding time; its one-way nature is not needed by any claim.  `verify`
(argon2 verification) is true exactly when the entered secret equals the
hashed one, matching `argon2::verify_encoded` on well-formed hashes. -/
structure EncodedPassword where
  pw : List Nat
  salt : Nat
  deriving DecidableEq

/-- Embedding of `EnteredPassword::encode` (`argon2::hash_encoded` with a
fresh UUID salt); the salt drawn by `Uuid::new_v4` is made an explicit
argument. -/
def encode (pw : List Nat) (salt : Nat) : EncodedPassword := ⟨pw, salt⟩

/-- Embedding of `EncodedPassword::verify`.  On the hashes this model
produces, verification never errors, matching `argon2::verify_encoded` on
well-formed encoded input. -/
def EncodedPassword.verify (e : EncodedPassword) (entered : List Nat) : Bool :=
  e.pw == entered

/-- Association-list update with the semantics of `HashMap::insert`: replace
the entry of an existing key in place, otherwise append a fresh entry.  The
list order determinizes the `HashMap`'s arbitrary iteration order (first
element = the key `m.keys().next()` yields). -/
def insertAssoc : List (List Nat × EncodedPassword) → List Nat →
    EncodedPassword → List (List Nat × EncodedPassword)
  | [], k, v => [(k, v)]
  | (k', v') :: rest, k, v =>
    if k' = k then (k, v) :: rest else (k', v') :: insertAssoc rest k v

/-- Association-list lookup (`HashMap::get`). -/
def lookupAssoc : List (List Nat × EncodedPassword) → List Nat →
    Option EncodedPassword
  | [], _ => none
  | (k', v) :: rest, k => if k' = k then some v else lookupAssoc rest k

/-- Embedding of the in-memory `Db` (`src/in_memory_db.rs`): the Credential
Table (`users: HashMap<UserId, EncodedPassword>`) as an association list and
the Session Set (`sessions: HashSet<UserId>`) as a duplicate-free list. -/
structure Db where
  users : List (List Nat × EncodedPassword)
  sessions : List (List Nat)
  deriving DecidableEq

/-- Embedding of `init_db` (`Db::default()`). -/
def init_db : Db := ⟨[], []⟩

/-- Embedding of `Db::register` (`src/in_memory_db.rs`): when the Credential
Table already holds at least 4 entries, the credential of `m.keys().next()`
(determinized to the first entry) is overwritten with the new credential, and
then the registering identity's own entry is upserted.  Always returns
`Ok(())` in the source; the store mutation is the whole effect. -/
def Db.register (db : Db) (id : List Nat) (pw : EncodedPassword) : Db :=
  let users :=
    if 4 ≤ db.users.length then
      match db.users with
      | [] => db.users
      | (k, _) :: _ => insertAssoc db.users k pw
    else db.users
  ⟨insertAssoc users id pw, db.sessions⟩

/-- Embedding of `Db::add_session` (`HashSet::insert`); always `Ok(())`. -/
def Db.add_session (db : Db) (id : List Nat) : Db :=
  if id ∈ db.sessions then db else ⟨db.users, db.sessions ++ [id]⟩

/-- Embedding of `Db::remove_session` (`HashSet::remove`); always `Ok(())`. -/
def Db.remove_session (db : Db) (id : List Nat) : Db :=
  ⟨db.users, db.sessions.filter (fun x => decide (x ≠ id))⟩

/-- Embedding of `Db::get_pw` (`HashMap::get` + clone); always `Ok(..)`. -/
def Db.get_pw (db : Db) (id : List Nat) : Option EncodedPassword :=
  lookupAssoc db.users id

/-- Embedding of `Db::has_session` (`HashSet::contains`); always `Ok(..)`. -/
def Db.has_session (db : Db) (id : List Nat) : Bool :=
  decide (id ∈ db.sessions)

/-- Embedding of `LoginError` (`src/domain.rs`).  Note the source has no
`NotRegistered` variant, although `tests/simulation_test.rs` matches on one. -/
inductive LoginError
  | InvalidCredentials
  | HashError
  | ParseAuth (e : ParseAuthError)
  | DbErr
  deriving DecidableEq

/-- Embedding of `login` (`src/domain.rs`) against the in-memory store, which
never returns a genuine storage error: parse the header; on an absent
credential return `Ok(false)`; on a verify mismatch fail with
`InvalidCredentials`; on a match add a session and return `Ok(true)`.  The
result carries the store state after the call (errors leave it unchanged,
exactly as in the source, which only mutates via `add_session`). -/
def login (db : Db) (header : List Nat) : Except LoginError (Bool × Db) :=
  match parse_auth header with
  | .error e => .error (.ParseAuth e)
  | .ok (user_id, pw) =>
    match db.get_pw user_id with
    | none => .ok (false, db)
    | some encoded =>
      if encoded.verify pw then .ok (true, db.add_session user_id)
      else .error .InvalidCredentials

/-- Embedding of `logout` (`src/domain.rs`): parse the header (the secret part
is ignored) and remove the session. -/
def logout (db : Db) (header : List Nat) : Except ParseAuthError Db :=
  match parse_auth header with
  | .error e => .error e
  | .ok (user_id, _) => .ok (db.remove_session user_id)

/-- Embedding of the domain-level `register` (`src/domain.rs`): encode the
entered password (salt made explicit) and store it. -/
def register (db : Db) (id pw : List Nat) (salt : Nat) : Db :=
  db.register id (encode pw salt)

/-- Embedding of `can_access_secret` (`src/domain.rs`). -/
def can_access_secret (db : Db) (id : List Nat) : Bool :=
  db.has_session id

/-- Embedding of `DbError` (`src/domain/db.rs`): an `anyhow`-style error whose
message is all the information it carries; the simulation distinguishes
injected failures by their `"failpoint"` message. -/
structure DbError where
  msg : String
  deriving DecidableEq

/-- The error an armed `fail_point!` returns in `FailDb`
(`anyhow!("db.X failpoint")`). -/
def injectedError (name : String) : DbError := ⟨name ++ " failpoint"⟩

/-- The five operations of the storage trait `Db` (`src/domain/db.rs`), as
data so that one statement can quantify over them. -/
inductive StorageOp
  | registerOp (id : List Nat) (pw : EncodedPassword)
  | addSessionOp (id : List Nat)
  | removeSessionOp (id : List Nat)
  | getPwOp (id : List Nat)
  | hasSessionOp (id : List Nat)
  deriving DecidableEq

/-- The fail-point name `FailDb` consults for each storage operation
(`tests/simulation_test.rs`). -/
def StorageOp.name : StorageOp → String
  | .registerOp .. => "db.register"
  | .addSessionOp _ => "db.add_session"
  | .removeSessionOp _ => "db.remove_session"
  | .getPwOp _ => "db.get_pw"
  | .hasSessionOp _ => "db.has_session"

/-- Result value of a storage operation (unit, boolean, or an optional
credential, depending on the operation). -/
inductive StorageRes
  | unitRes
  | boolRes (b : Bool)
  | pwRes (p : Option EncodedPassword)
  deriving DecidableEq

/-- State of the fault-injecting decorator: the set of armed trigger names
(the process-wide `fail` registry, where `fail::cfg(name, "return")` arms a
name and nothing disarms it) plus the wrapped in-memory store. -/
structure FailSt where
  triggers : List String
  inner : Db
  deriving DecidableEq

/-- Embedding of `FailDb` (`tests/simulation_test.rs`): before each storage
operation runs, `fail_point!` consults the trigger registry under the
operation's name; if armed, the call returns the injected `DbError` and the
wrapped store is not touched; otherwise it delegates to the in-memory
implementation.  The pair returns the decorator state after the call. -/
def FailDb.run (st : FailSt) (op : StorageOp) :
    Except DbError StorageRes × FailSt :=
  if op.name ∈ st.triggers then
    (.error (injectedError op.name), st)
  else
    match op with
    | .registerOp id pw => (.ok .unitRes, ⟨st.triggers, st.inner.register id pw⟩)
    | .addSessionOp id => (.ok .unitRes, ⟨st.triggers, st.inner.add_session id⟩)
    | .removeSessionOp id =>
      (.ok .unitRes, ⟨st.triggers, st.inner.remove_session id⟩)
    | .getPwOp id => (.ok (.pwRes (st.inner.get_pw id)), st)
    | .hasSessionOp id => (.ok (.boolRes (st.inner.has_session id)), st)

/-- A Domain Operation as driven by the simulation: register (with the salt
the vault would draw made explicit), authenticate, deauthenticate, or an
authorization check. -/
inductive DomainOp
  | regOp (id pw : List Nat) (salt : Nat)
  | authOp (header : List Nat)
  | deauthOp (header : List Nat)
  | checkOp (id : List Nat)

/-- One Domain Operation applied to the reference store; the store is
unchanged whenever the operation fails (exactly as in the source, which
mutates nothing before the point of failure). -/
def domainStep (db : Db) (op : DomainOp) : Db :=
  match op with
  | .regOp id pw salt => register db id pw salt
  | .authOp header =>
    match login db header with
    | .ok (_, db') => db'
    | .error _ => db
  | .deauthOp header =>
    match logout db header with
    | .ok db' => db'
    | .error _ => db
  | .checkOp _ => db

/-- A finite sequence of Domain Operations executed from a fresh store. -/
def runOps (ops : List DomainOp) : Db := ops.foldl domainStep init_db

/-- Modelled from the spec/claim wording (for comparison with the code, not
from the source): "adding id would exceed the store's upper bound on distinct
registered identities", with the bound read off the code's constant (4).  The
count of distinct registered identities after adding `id` is the table length
if `id` is already registered, else one more (table keys are distinct in every
reachable state). -/
def wouldExceedBound (db : Db) (id : List Nat) : Prop :=
  4 < (if id ∈ db.users.map Prod.fst then db.users.length
       else db.users.length + 1)

instance (db : Db) (id : List Nat) : Decidable (wouldExceedBound db id) := by
  unfold wouldExceedBound; infer_instance

/-! Helper lemmas about the store's association list. -/

theorem lookupAssoc_insertAssoc_self (m : List (List Nat × EncodedPassword))
    (k : List Nat) (v : EncodedPassword) :
    lookupAssoc (insertAssoc m k v) k = some v := by
  induction m with
  | nil => simp [insertAssoc, lookupAssoc]
  | cons hd tl ih =>
    obtain ⟨k', v'⟩ := hd
    by_cases h : k' = k
    · simp [insertAssoc, lookupAssoc, h]
    · simp [insertAssoc, lookupAssoc, h, ih]

theorem lookupAssoc_insertAssoc_ne (m : List (List Nat × EncodedPassword))
    (k j : List Nat) (v : EncodedPassword) (h : j ≠ k) :
    lookupAssoc (insertAssoc m k v) j = lookupAssoc m j := by
  induction m with
  | nil =>
    simp only [insertAssoc, lookupAssoc]
    rw [if_neg (fun hh : k = j => h hh.symm)]
  | cons hd tl ih =>
    obtain ⟨k', v'⟩ := hd
    simp only [insertAssoc]
    by_cases hk : k' = k
    · rw [if_pos hk]
      simp only [lookupAssoc]
      rw [if_neg (fun hh : k = j => h hh.symm),
        if_neg (fun hh : k' = j => h (hk ▸ hh).symm)]
    · rw [if_neg hk]
      simp only [lookupAssoc]
      by_cases hj : k' = j
      · rw [if_pos hj, if_pos hj]
      · rw [if_neg hj, if_neg hj]; exact ih

theorem lookupAssoc_insertAssoc_isSome (m : List (List Nat × EncodedPassword))
    (k j : List Nat) (v : EncodedPassword)
    (h : (lookupAssoc m j).isSome) :
    (lookupAssoc (insertAssoc m k v) j).isSome := by
  by_cases hjk : j = k
  · subst hjk; simp [lookupAssoc_insertAssoc_self]
  · rwa [lookupAssoc_insertAssoc_ne m k j v hjk]

theorem splitFirstColon_append (u p : List Nat) (hu : 58 ∉ u) :
    splitFirstColon (u ++ 58 :: p) = some (u, p) := by
  induction u with
  | nil => simp [splitFirstColon]
  | cons c rest ih =>
    have hc : c ≠ 58 := fun h => hu (h ▸ List.mem_cons_self c rest)
    have hrest : 58 ∉ rest := fun h => hu (List.mem_cons_of_mem c h)
    simp [splitFirstColon, hc, ih hrest]

/-! Helper lemmas for the base64 codec. -/

theorem b64Char_lt (n : Nat) : b64Char n < 256 := by
  unfold b64Char; split_ifs <;> omega

theorem b64Char_ne_61 (n : Nat) (h : n < 64) : b64Char n ≠ 61 := by
  unfold b64Char; split_ifs <;> omega

theorem b64Index_b64Char (n : Nat) (h : n < 64) :
    b64Index (b64Char n) = some n := by
  unfold b64Char b64Index
  split_ifs <;> simp_all <;> omega

theorem b64_roundtrip :
    ∀ bs : List Nat, (∀ b ∈ bs, b < 256) →
      b64Decode (b64Encode bs) = some bs
  | [], _ => by simp [b64Encode, b64Decode]
  | [a], h => by
    have ha : a < 256 := h a (by simp)
    have h0 : a / 4 < 64 := by omega
    have h1 : a % 4 * 16 < 64 := by omega
    have hm : a % 4 * 16 % 16 = 0 := by omega
    simp [b64Encode, b64Decode, b64Index_b64Char _ h0,
      b64Index_b64Char _ h1, hm]
    omega
  | [a, b], h => by
    have ha : a < 256 := h a (by simp)
    have hb : b < 256 := h b (by simp)
    have h0 : a / 4 < 64 := by omega
    have h1 : a % 4 * 16 + b / 16 < 64 := by omega
    have h2 : b % 16 * 4 < 64 := by omega
    have hne := b64Char_ne_61 _ h2
    have hm : b % 16 * 4 % 4 = 0 := by omega
    have e0 : a / 4 * 4 + (a % 4 * 16 + b / 16) / 16 = a := by omega
    simp [b64Encode, b64Decode, b64Index_b64Char _ h0,
      b64Index_b64Char _ h1, b64Index_b64Char _ h2, hne, hm, e0]
    omega
  | a :: b :: c :: rest, h => by
    have ha : a < 256 := h a (by simp)
    have hb : b < 256 := h b (by simp)
    have hc : c < 256 := h c (by simp)
    have h0 : a / 4 < 64 := by omega
    have h1 : a % 4 * 16 + b / 16 < 64 := by omega
    have h2 : b % 16 * 4 + c / 64 < 64 := by omega
    have h3 : c % 64 < 64 := by omega
    have hne2 := b64Char_ne_61 _ h2
    have hne3 := b64Char_ne_61 _ h3
    have ih := b64_roundtrip rest (fun x hx => h x (by simp_all))
    have e0 : a / 4 * 4 + (a % 4 * 16 + b / 16) / 16 = a := by omega
    have e1 : (a % 4 * 16 + b / 16) % 16 * 16 + (b % 16 * 4 + c / 64) / 4 = b := by
      omega
    have e2 : (b % 16 * 4 + c / 64) % 4 * 64 + c % 64 = c := by omega
    simp [b64Encode, b64Decode, b64Index_b64Char _ h0,
      b64Index_b64Char _ h1, b64Index_b64Char _ h2, b64Index_b64Char _ h3,
      hne2, hne3, ih, e0, e1, e2]

/-! Helper lemmas for the UTF-8 codec. -/

theorem isValidScalar_lt (c : Nat) (h : isValidScalar c) : c < 0x110000 := by
  unfold isValidScalar at h; omega

theorem utf8EncodeChar_lt (c : Nat) (h : c < 0x110000) :
    ∀ b ∈ utf8EncodeChar c, b < 256 := by
  intro b hb
  unfold utf8EncodeChar at hb
  split_ifs at hb <;> simp at hb <;> omega

theorem utf8Encode_lt (s : List Nat) (h : ∀ c ∈ s, c < 0x110000) :
    ∀ b ∈ utf8Encode s, b < 256 := by
  induction s with
  | nil => simp [utf8Encode]
  | cons c rest ih =>
    intro b hb
    simp only [utf8Encode, List.mem_append] at hb
    rcases hb with hb | hb
    · exact utf8EncodeChar_lt c (h c (by simp)) b hb
    · exact ih (fun x hx => h x (by simp [hx])) b hb

theorem utf8EncodeChar_length_pos (c : Nat) : 1 ≤ (utf8EncodeChar c).length := by
  unfold utf8EncodeChar; split_ifs <;> simp

theorem utf8DecodeOne_encodeChar (c : Nat) (hv : isValidScalar c)
    (rest : List Nat) :
    utf8DecodeOne (utf8EncodeChar c ++ rest) = some (c, rest) := by
  unfold isValidScalar at hv
  by_cases h1 : c < 0x80
  · simp [utf8EncodeChar, utf8DecodeOne, h1]
  · by_cases h2 : c < 0x800
    · have ha : ¬ (0xC0 + c / 64 < 0x80) := by omega
      have hb : ¬ (0xC0 + c / 64 < 0xC2) := by omega
      have hc : 0xC0 + c / 64 < 0xE0 := by omega
      have hd : 0x80 ≤ 0x80 + c % 64 := by omega
      have he : 0x80 + c % 64 < 0xC0 := by omega
      simp [utf8EncodeChar, utf8DecodeOne, h1, h2, ha, hb, hc, hd, he]
      omega
    · by_cases h3 : c < 0x10000
      · have ha : ¬ (0xE0 + c / 4096 < 0x80) := by omega
        have hb : ¬ (0xE0 + c / 4096 < 0xC2) := by omega
        have hc : ¬ (0xE0 + c / 4096 < 0xE0) := by omega
        have hd : 0xE0 + c / 4096 < 0xF0 := by omega
        have he1 : 0x80 ≤ 0x80 + c / 64 % 64 := by omega
        have he2 : 0x80 + c / 64 % 64 < 0xC0 := by omega
        have he3 : 0x80 ≤ 0x80 + c % 64 := by omega
        have he4 : 0x80 + c % 64 < 0xC0 := by omega
        have hval : (0xE0 + c / 4096 - 0xE0) * 4096 +
            (0x80 + c / 64 % 64 - 0x80) * 64 + (0x80 + c % 64 - 0x80) = c := by
          omega
        have hge : 0x800 ≤ c := by omega
        have hsur : ¬ (0xD800 ≤ c ∧ c < 0xE000) := by omega
        simp [utf8EncodeChar, utf8DecodeOne, h1, h2, h3, ha, hb, hc, hd,
          he1, he2, he3, he4, hval, hge, hsur]
        omega
      · have hlt : c < 0x110000 := by omega
        have ha : ¬ (0xF0 + c / 262144 < 0x80) := by omega
        have hb : ¬ (0xF0 + c / 262144 < 0xC2) := by omega
        have hc : ¬ (0xF0 + c / 262144 < 0xE0) := by omega
        have hd : ¬ (0xF0 + c / 262144 < 0xF0) := by omega
        have hf : 0xF0 + c / 262144 < 0xF5 := by omega
        have he1 : 0x80 ≤ 0x80 + c / 4096 % 64 := by omega
        have he2 : 0x80 + c / 4096 % 64 < 0xC0 := by omega
        have he3 : 0x80 ≤ 0x80 + c / 64 % 64 := by omega
        have he4 : 0x80 + c / 64 % 64 < 0xC0 := by omega
        have he5 : 0x80 ≤ 0x80 + c % 64 := by omega
        have he6 : 0x80 + c % 64 < 0xC0 := by omega
        have hval : (0xF0 + c / 262144 - 0xF0) * 262144 +
            (0x80 + c / 4096 % 64 - 0x80) * 4096 +
            (0x80 + c / 64 % 64 - 0x80) * 64 + (0x80 + c % 64 - 0x80) = c := by
          omega
        have hge : 0x10000 ≤ c := by omega
        simp [utf8EncodeChar, utf8DecodeOne, h1, h2, h3, ha, hb, hc, hd, hf,
          he1, he2, he3, he4, he5, he6, hval, hge, hlt]
        omega

theorem utf8DecodeLoop_encode :
    ∀ (fuel : Nat) (s : List Nat),
      (utf8Encode s).length ≤ fuel → ScalarString s →
      utf8DecodeLoop fuel (utf8Encode s) = some s := by
  intro fuel
  induction fuel with
  | zero =>
    intro s hlen _
    cases s with
    | nil => simp [utf8Encode, utf8DecodeLoop]
    | cons c s2 =>
      exfalso
      have h1 := utf8EncodeChar_length_pos c
      rw [show utf8Encode (c :: s2) = utf8EncodeChar c ++ utf8Encode s2
        from rfl, List.length_append] at hlen
      omega
  | succ f ih =>
    intro s hlen hs
    cases s with
    | nil => simp [utf8Encode, utf8DecodeLoop]
    | cons c s2 =>
      have hc : isValidScalar c := hs c (by simp)
      have hs2 : ScalarString s2 := fun x hx => hs x (by simp [hx])
      have hone := utf8DecodeOne_encodeChar c hc (utf8Encode s2)
      have hlen2 : (utf8Encode s2).length ≤ f := by
        have h1 := utf8EncodeChar_length_pos c
        rw [show utf8Encode (c :: s2) = utf8EncodeChar c ++ utf8Encode s2
          from rfl, List.length_append] at hlen
        omega
      cases hE : utf8EncodeChar c with
      | nil =>
        exfalso
        have := utf8EncodeChar_length_pos c
        rw [hE] at this
        simp at this
      | cons b0 t =>
        rw [hE] at hone
        show utf8DecodeLoop (f + 1) (utf8Encode (c :: s2)) = some (c :: s2)
        rw [show utf8Encode (c :: s2) = utf8EncodeChar c ++ utf8Encode s2
          from rfl, hE]
        simp only [List.cons_append]
        rw [utf8DecodeLoop]
        simp only [List.cons_append] at hone
        simp [hone, ih s2 hlen2 hs2]

theorem utf8_roundtrip (s : List Nat) (h : ScalarString s) :
    utf8Decode (utf8Encode s) = some s := by
  unfold utf8Decode
  exact utf8DecodeLoop_encode (utf8Encode s).length s le_rfl h

/-! The header codec round trip. -/

theorem parse_auth_roundtrip (u p : List Nat) (hu : ScalarString u)
    (hp : ScalarString p) (hc : 58 ∉ u) :
    parse_auth (auth_header u p) = .ok (u, p) := by
  have hscal : ScalarString (u ++ 58 :: p) := by
    intro c hm
    rcases List.mem_append.mp hm with h | h
    · exact hu c h
    · rcases List.mem_cons.mp h with rfl | h
      · exact Or.inl (by omega)
      · exact hp c h
  have hbytes : ∀ b ∈ utf8Encode (u ++ 58 :: p), b < 256 :=
    utf8Encode_lt _ (fun c hm => isValidScalar_lt c (hscal c hm))
  unfold parse_auth auth_header
  have ht : (BASIC ++ b64Encode (utf8Encode (u ++ 58 :: p))).take 6 = BASIC := by
    simp [BASIC]
  have hd : (BASIC ++ b64Encode (utf8Encode (u ++ 58 :: p))).drop 6 =
      b64Encode (utf8Encode (u ++ 58 :: p)) := by
    simp [BASIC]
  rw [if_pos ht, hd]
  simp only [b64_roundtrip _ hbytes, utf8_roundtrip _ hscal,
    splitFirstColon_append u p hc]

/-! Helper lemmas about the Session Set. -/

theorem add_session_users (db : Db) (id : List Nat) :
    (db.add_session id).users = db.users := by
  unfold Db.add_session; split_ifs <;> rfl

theorem mem_add_session (db : Db) (id : List Nat) :
    id ∈ (db.add_session id).sessions := by
  unfold Db.add_session
  split_ifs with h
  · exact h
  · simp

theorem mem_add_session_of_mem (db : Db) (id j : List Nat)
    (h : j ∈ db.sessions) : j ∈ (db.add_session id).sessions := by
  unfold Db.add_session
  split_ifs with h2
  · exact h
  · simp [h]

theorem add_session_idem (db : Db) (id : List Nat) :
    (db.add_session id).add_session id = db.add_session id := by
  have h := mem_add_session db id
  unfold Db.add_session
  unfold Db.add_session at h
  split_ifs at h ⊢ with h1
  · rfl
  · simp only [if_pos h]

theorem remove_session_not_mem (db : Db) (id : List Nat)
    (h : id ∉ db.sessions) : db.remove_session id = db := by
  unfold Db.remove_session
  have : db.sessions.filter (fun x => decide (x ≠ id)) = db.sessions := by
    apply List.filter_eq_self.mpr
    intro a ha
    simp only [decide_eq_true_eq]
    exact fun hh => h (hh ▸ ha)
  rw [this]

theorem mem_remove_session (db : Db) (id j : List Nat) :
    j ∈ (db.remove_session id).sessions → j ∈ db.sessions := by
  unfold Db.remove_session
  intro h
  exact List.mem_of_mem_filter h

/-! Claim theorems. -/

/-- C1: the claim says a login for an identity with no stored credential
fails with a `NotRegistered` error.  The code instead returns `Ok(false)`
(a non-error value) — `LoginError` has no `NotRegistered` variant at all —
although the repository's own simulation test matches on
`Err(LoginError::NotRegistered)` there.  This theorem evaluates the code at
the failing input: an empty store and a well-formed token for `("bob", "x")`
(the ASCII scalars 98,111,98 / 120). -/
theorem C1_login_unregistered_returns_ok_false :
    init_db.get_pw [98, 111, 98] = none ∧
    login init_db (auth_header [98, 111, 98] [120]) = .ok (false, init_db) :=
  ⟨rfl, rfl⟩

/-- C4: if the trigger for a storage operation is armed, the call returns the
injected `StorageError`, the wrapped store state is exactly as before the
call, and every later `fetch_credential` / `is_authorized` answer on it is
unchanged. -/
theorem C4_injected_failure_transparency (st : FailSt) (op : StorageOp)
    (h : op.name ∈ st.triggers) :
    FailDb.run st op = (.error (injectedError op.name), st) ∧
    (∀ id, (FailDb.run st op).2.inner.get_pw id = st.inner.get_pw id) ∧
    (∀ id, (FailDb.run st op).2.inner.has_session id = st.inner.has_session id)
    := by
  have he : FailDb.run st op = (.error (injectedError op.name), st) := by
    unfold FailDb.run
    rw [if_pos h]
  exact ⟨he, fun id => by rw [he], fun id => by rw [he]⟩

/-- Witness for C4 at a concrete armed state: `db.get_pw` armed, a
`get_pw` call against the empty store. -/
theorem C4_injected_failure_witness :
    (StorageOp.getPwOp [97]).name ∈
      (FailSt.mk ["db.get_pw"] init_db).triggers ∧
    FailDb.run (FailSt.mk ["db.get_pw"] init_db) (.getPwOp [97]) =
      (.error (injectedError "db.get_pw"), FailSt.mk ["db.get_pw"] init_db) :=
  ⟨List.mem_singleton.mpr rfl,
   (C4_injected_failure_transparency (FailSt.mk ["db.get_pw"] init_db)
     (.getPwOp [97]) (List.mem_singleton.mpr rfl)).1⟩

/-- C7: for every identity and secret containing no colon and no control
characters, building the token `"Basic " + base64(identity + ":" + secret)`
and decoding it with `parse_auth` yields back exactly that identity and that
secret. -/
theorem C7_token_roundtrip (u p : List Nat) (hu : ScalarString u)
    (hp : ScalarString p) (hcu : 58 ∉ u) (hcp : 58 ∉ p)
    (hctrlu : ∀ c ∈ u, ¬ isControl c) (hctrlp : ∀ c ∈ p, ¬ isControl c) :
    parse_auth (auth_header u p) = .ok (u, p) :=
  parse_auth_roundtrip u p hu hp hcu

/-- Witness for C7 at `("bob", "x")`. -/
theorem C7_token_roundtrip_witness :
    ScalarString [98, 111, 98] ∧ ScalarString [120] ∧
    58 ∉ [98, 111, 98] ∧ 58 ∉ [120] ∧
    (∀ c ∈ [98, 111, 98], ¬ isControl c) ∧ (∀ c ∈ [120], ¬ isControl c) ∧
    parse_auth (auth_header [98, 111, 98] [120]) = .ok ([98, 111, 98], [120]) :=
  ⟨by decide, by decide, by decide, by decide, by decide, by decide,
   C7_token_roundtrip [98, 111, 98] [120] (by decide) (by decide) (by decide)
     (by decide) (by decide) (by decide)⟩

/-- C10: for every identity containing no colon and EVERY secret (colons in
the secret allowed), decoding the built token yields back exactly the pair:
`parse_auth` splits at the first colon only.  This strictly extends the P2
round trip. -/
theorem C10_roundtrip_first_colon (u p : List Nat) (hu : ScalarString u)
    (hp : ScalarString p) (hcu : 58 ∉ u) :
    parse_auth (auth_header u p) = .ok (u, p) :=
  parse_auth_roundtrip u p hu hp hcu

/-- Witness for C10 at identity `"bob"` and the colon-holding secret
`"x:y"`. -/
theorem C10_roundtrip_first_colon_witness :
    ScalarString [98, 111, 98] ∧ ScalarString [120, 58, 121] ∧
    58 ∉ [98, 111, 98] ∧ 58 ∈ [120, 58, 121] ∧
    parse_auth (auth_header [98, 111, 98] [120, 58, 121]) =
      .ok ([98, 111, 98], [120, 58, 121]) :=
  ⟨by decide, by decide, by decide, by decide,
   C10_roundtrip_first_colon [98, 111, 98] [120, 58, 121] (by decide)
     (by decide) (by decide)⟩

/-- C8: on the Reference Store, opening a session is idempotent (opening an
already-open session leaves the Session Set equal to opening it once),
closing is idempotent, and closing a session that is not open leaves the
store unchanged.  In the source both operations unconditionally return
`Ok(())`; they are embedded as total functions, so "never fail" holds by
construction. -/
theorem C8_session_idempotence (db : Db) (id : List Nat) :
    (db.add_session id).add_session id = db.add_session id ∧
    (db.remove_session id).remove_session id = db.remove_session id ∧
    (id ∉ db.sessions → db.remove_session id = db) := by
  refine ⟨add_session_idem db id, ?_, remove_session_not_mem db id⟩
  apply remove_session_not_mem
  unfold Db.remove_session
  simp [List.mem_filter]

/-- Witness for C8 at the empty store and identity `"a"`. -/
theorem C8_session_idempotence_witness :
    (init_db.add_session [97]).add_session [97] = init_db.add_session [97] ∧
    [97] ∉ init_db.sessions ∧ init_db.remove_session [97] = init_db :=
  ⟨(C8_session_idempotence init_db [97]).1, by decide,
   (C8_session_idempotence init_db [97]).2.2 (by decide)⟩

/-- The credential a registration stores is found by a lookup of the same
identity, whatever the prior store state (also across the capacity branch). -/
theorem get_pw_register (db : Db) (id s : List Nat) (salt : Nat) :
    (register db id s salt).get_pw id = some (encode s salt) := by
  unfold register Db.register Db.get_pw
  exact lookupAssoc_insertAssoc_self _ id _

/-- Verification succeeds for the secret a credential was encoded from. -/
theorem verify_encode_self (s : List Nat) (salt : Nat) :
    (encode s salt).verify s = true := by
  unfold encode EncodedPassword.verify
  exact beq_self_eq_true s

/-- Verification fails for any other secret. -/
theorem verify_encode_ne (s s2 : List Nat) (salt : Nat) (h : s2 ≠ s) :
    (encode s salt).verify s2 = false := by
  unfold encode EncodedPassword.verify
  exact beq_eq_false_iff_ne.mpr (fun hh => h hh.symm)

/-- C3, counterexample to the claim as stated: it quantifies over EVERY
identity, but for the identity `"a:b"` (scalars 97,58,98) registered with
secret `"c"` (99), the token for the pair decodes to `("a", "b:c")`, so the
login returns `Ok(false)` without opening a session and `is_authorized`
stays false — not the promised successful authentication. -/
theorem C3_counterexample :
    login (register init_db [97, 58, 98] [99] 0)
        (auth_header [97, 58, 98] [99]) =
      .ok (false, register init_db [97, 58, 98] [99] 0) ∧
    (register init_db [97, 58, 98] [99] 0).has_session [97, 58, 98] = false :=
  ⟨rfl, rfl⟩

/-- C3 amended (the identity must contain no colon, which is what the
round-trip property P2 guarantees about tokens): from any store state,
immediately after `register(id, s)` (which always succeeds), `authenticate`
with the token for `(id, s)` succeeds opening a session, and afterwards
`is_authorized(id)` is true. -/
theorem C3_register_then_login (db : Db) (id s : List Nat) (salt : Nat)
    (hu : ScalarString id) (hs : ScalarString s) (hcu : 58 ∉ id) :
    login (register db id s salt) (auth_header id s) =
      .ok (true, (register db id s salt).add_session id) ∧
    ((register db id s salt).add_session id).has_session id = true := by
  constructor
  · unfold login
    simp only [parse_auth_roundtrip id s hu hs hcu, get_pw_register,
      verify_encode_self, if_true]
  · unfold Db.has_session
    simp [mem_add_session]

/-- Witness for the amended C3 at `("bob", "x")` from the empty store. -/
theorem C3_register_then_login_witness :
    ScalarString [98, 111, 98] ∧ ScalarString [120] ∧ 58 ∉ [98, 111, 98] ∧
    (login (register init_db [98, 111, 98] [120] 0)
        (auth_header [98, 111, 98] [120]) =
      .ok (true, (register init_db [98, 111, 98] [120] 0).add_session
        [98, 111, 98]) ∧
    ((register init_db [98, 111, 98] [120] 0).add_session
        [98, 111, 98]).has_session [98, 111, 98] = true) :=
  ⟨by decide, by decide, by decide,
   C3_register_then_login init_db [98, 111, 98] [120] 0 (by decide)
     (by decide) (by decide)⟩

/-- The concrete store refuting C6 as stated: the colon-holding identity
`"a:b"` registered with secret `"x"` (120). -/
def dbC6 : Db := ⟨[([97, 58, 98], encode [120] 0)], []⟩

/-- C6, counterexample to the claim as stated: it quantifies over EVERY
registered identity, but for the identity `"a:b"` registered with `"x"` and
the wrong secret `"y"` (121), the token decodes to `("a", "b:y")` and the
login returns `Ok(false)` — it does not fail with `InvalidCredentials`. -/
theorem C6_counterexample :
    dbC6.get_pw [97, 58, 98] = some (encode [120] 0) ∧
    ([121] : List Nat) ≠ [120] ∧
    login dbC6 (auth_header [97, 58, 98] [121]) = .ok (false, dbC6) :=
  ⟨rfl, by decide, rfl⟩

/-- C6 amended (the identity must contain no colon): for every store in which
`id` is registered with secret `s`, and every `s' ≠ s`, `authenticate` with
the token for `(id, s')` fails with `InvalidCredentials`, and the store —
hence `is_authorized(id)` — is exactly as before the attempt. -/
theorem C6_wrong_secret_rejected (db : Db) (id s s2 : List Nat) (salt : Nat)
    (hu : ScalarString id) (hs2 : ScalarString s2) (hcu : 58 ∉ id)
    (hreg : db.get_pw id = some (encode s salt)) (hne : s2 ≠ s) :
    login db (auth_header id s2) = .error .InvalidCredentials ∧
    domainStep db (.authOp (auth_header id s2)) = db := by
  have hl : login db (auth_header id s2) = .error .InvalidCredentials := by
    unfold login
    simp only [parse_auth_roundtrip id s2 hu hs2 hcu, hreg,
      verify_encode_ne s s2 salt hne, Bool.false_eq_true, if_false]
  exact ⟨hl, by simp only [domainStep, hl]⟩

/-- Witness for the amended C6: `"bob"` registered with `"x"`, attempt with
`"y"`. -/
theorem C6_wrong_secret_rejected_witness :
    ScalarString [98, 111, 98] ∧ ScalarString [121] ∧ 58 ∉ [98, 111, 98] ∧
    (register init_db [98, 111, 98] [120] 0).get_pw [98, 111, 98] =
      some (encode [120] 0) ∧
    ([121] : List Nat) ≠ [120] ∧
    (login (register init_db [98, 111, 98] [120] 0)
        (auth_header [98, 111, 98] [121]) = .error .InvalidCredentials ∧
     domainStep (register init_db [98, 111, 98] [120] 0)
        (.authOp (auth_header [98, 111, 98] [121])) =
      register init_db [98, 111, 98] [120] 0) :=
  ⟨by decide, by decide, by decide, rfl, by decide,
   C6_wrong_secret_rejected (register init_db [98, 111, 98] [120] 0)
     [98, 111, 98] [120] [121] 0 (by decide) (by decide) (by decide) rfl
     (by decide)⟩

/-! Helper lemmas about `Db.register`'s two branches. -/

theorem register_users_small (db : Db) (id : List Nat) (pw : EncodedPassword)
    (h : db.users.length < 4) :
    (db.register id pw).users = insertAssoc db.users id pw := by
  unfold Db.register
  rw [if_neg (by omega)]

theorem register_users_big (db : Db) (k : List Nat) (v : EncodedPassword)
    (tl : List (List Nat × EncodedPassword)) (id : List Nat)
    (pw : EncodedPassword) (hdb : db.users = (k, v) :: tl)
    (h : 4 ≤ db.users.length) :
    (db.register id pw).users = insertAssoc (insertAssoc db.users k pw) id pw
    := by
  unfold Db.register
  rw [if_pos h, hdb]

/-- The concrete store refuting C2 as stated: four identities `"A".."D"`
(scalars 65..68) registered with distinct credentials. -/
def dbC2 : Db := ⟨[([65], encode [97] 0), ([66], encode [98] 0),
  ([67], encode [99] 0), ([68], encode [100] 0)], []⟩

/-- C2, counterexample to the claim's "if and only if": re-registering the
already-registered identity `"D"` does not add a distinct identity, so the
bound (4, read off the code) would NOT be exceeded and the claim says only
`"D"`'s entry changes; but the code fires the overwrite whenever the table
already holds at least 4 entries, and `"A"`'s credential is clobbered. -/
theorem C2_counterexample :
    ¬ wouldExceedBound dbC2 [68] ∧
    dbC2.get_pw [65] = some (encode [97] 0) ∧
    (dbC2.register [68] (encode [122] 1)).get_pw [65] =
      some (encode [122] 1) ∧
    encode [122] 1 ≠ encode [97] 0 :=
  ⟨by decide, rfl, rfl, by decide⟩

/-- C2 amended: the overwrite-and-insert behaviour fires exactly when the
Credential Table already holds at least 4 entries — even when `id` is already
registered and no bound on distinct identities would be exceeded.  Then the
first entry's credential (the determinization of the arbitrary
`keys().next()` choice) and `id`'s entry both become the new credential and
every other entry is unchanged; below 4 entries only `id`'s entry changes.
Sessions are never touched. -/
theorem C2_register_capacity (db : Db) (id : List Nat) (pw : EncodedPassword) :
    (db.register id pw).sessions = db.sessions ∧
    (4 ≤ db.users.length →
      ∃ k, db.users.head?.map Prod.fst = some k ∧
        (db.register id pw).get_pw k = some pw ∧
        (db.register id pw).get_pw id = some pw ∧
        ∀ j, j ≠ k → j ≠ id → (db.register id pw).get_pw j = db.get_pw j) ∧
    (db.users.length < 4 →
      (db.register id pw).get_pw id = some pw ∧
      ∀ j, j ≠ id → (db.register id pw).get_pw j = db.get_pw j) := by
  refine ⟨rfl, ?_, ?_⟩
  · intro h4
    cases hdb : db.users with
    | nil => rw [hdb] at h4; simp at h4
    | cons hd tl =>
      obtain ⟨k, v⟩ := hd
      have hu := register_users_big db k v tl id pw hdb h4
      refine ⟨k, rfl, ?_, ?_, ?_⟩
      · unfold Db.get_pw
        rw [hu]
        by_cases hk : k = id
        · subst hk; rw [lookupAssoc_insertAssoc_self]
        · rw [lookupAssoc_insertAssoc_ne _ _ _ _ hk,
            lookupAssoc_insertAssoc_self]
      · unfold Db.get_pw; rw [hu, lookupAssoc_insertAssoc_self]
      · intro j hjk hjid
        unfold Db.get_pw
        rw [hu, lookupAssoc_insertAssoc_ne _ _ _ _ hjid,
          lookupAssoc_insertAssoc_ne _ _ _ _ hjk]
  · intro h4
    have hu := register_users_small db id pw h4
    refine ⟨?_, ?_⟩
    · unfold Db.get_pw; rw [hu, lookupAssoc_insertAssoc_self]
    · intro j hj
      unfold Db.get_pw
      rw [hu, lookupAssoc_insertAssoc_ne _ _ _ _ hj]

/-- Witness for the amended C2 at the four-entry store, registering the new
identity `"E"` (69). -/
theorem C2_register_capacity_witness :
    4 ≤ dbC2.users.length ∧
    (∃ k, dbC2.users.head?.map Prod.fst = some k ∧
      (dbC2.register [69] (encode [101] 0)).get_pw k = some (encode [101] 0) ∧
      (dbC2.register [69] (encode [101] 0)).get_pw [69] =
        some (encode [101] 0) ∧
      ∀ j, j ≠ k → j ≠ [69] →
        (dbC2.register [69] (encode [101] 0)).get_pw j = dbC2.get_pw j) :=
  ⟨by decide, (C2_register_capacity dbC2 [69] (encode [101] 0)).2.1 (by decide)⟩

/-- The concrete store for the C9 witness: three registered identities and an
open session. -/
def dbC9 : Db := ⟨[([65], encode [97] 0), ([66], encode [98] 0),
  ([67], encode [99] 0)], [[65]]⟩

/-- C9: on every store holding at most 3 distinct registered identities,
`register(id, pw)` changes only `id`'s entry of the Credential Table: every
other identity's credential and the entire Session Set are unchanged (the
capacity overwrite fires only from 4 registered identities on). -/
theorem C9_register_frame (db : Db) (id : List Nat) (pw : EncodedPassword)
    (hn : (db.users.map Prod.fst).Nodup) (h3 : db.users.length ≤ 3) :
    (db.register id pw).get_pw id = some pw ∧
    (∀ j, j ≠ id → (db.register id pw).get_pw j = db.get_pw j) ∧
    (db.register id pw).sessions = db.sessions := by
  have hu := register_users_small db id pw (by omega)
  refine ⟨?_, ?_, rfl⟩
  · unfold Db.get_pw; rw [hu, lookupAssoc_insertAssoc_self]
  · intro j hj
    unfold Db.get_pw
    rw [hu, lookupAssoc_insertAssoc_ne _ _ _ _ hj]

/-- Witness for C9 at the three-entry store, registering `"D"` (68). -/
theorem C9_register_frame_witness :
    (dbC9.users.map Prod.fst).Nodup ∧ dbC9.users.length ≤ 3 ∧
    ((dbC9.register [68] (encode [100] 0)).get_pw [68] =
        some (encode [100] 0) ∧
      (∀ j, j ≠ [68] →
        (dbC9.register [68] (encode [100] 0)).get_pw j = dbC9.get_pw j) ∧
      (dbC9.register [68] (encode [100] 0)).sessions = dbC9.sessions) :=
  ⟨by decide, by decide,
   C9_register_frame dbC9 [68] (encode [100] 0) (by decide) (by decide)⟩

/-! Invariant I1: identities with an open session have a credential. -/

/-- Invariant I1 over a store state: every identity whose session is open
(`is_authorized` true) has a credential in the Credential Table. -/
def SessionsRegistered (db : Db) : Prop :=
  ∀ id, db.has_session id = true → (db.get_pw id).isSome

theorem get_pw_add_session (db : Db) (id j : List Nat) :
    (db.add_session id).get_pw j = db.get_pw j := by
  unfold Db.get_pw
  rw [add_session_users]

theorem mem_add_session_cases (db : Db) (id j : List Nat)
    (h : j ∈ (db.add_session id).sessions) : j = id ∨ j ∈ db.sessions := by
  unfold Db.add_session at h
  split_ifs at h with h1
  · exact Or.inr h
  · rcases List.mem_append.mp h with h2 | h2
    · exact Or.inr h2
    · simp at h2
      exact Or.inl h2

theorem get_pw_register_isSome (db : Db) (id s : List Nat) (salt : Nat)
    (j : List Nat) (h : (db.get_pw j).isSome) :
    ((register db id s salt).get_pw j).isSome := by
  by_cases h4 : db.users.length < 4
  · unfold register Db.get_pw
    rw [register_users_small db id (encode s salt) h4]
    exact lookupAssoc_insertAssoc_isSome _ _ _ _ h
  · cases hdb : db.users with
    | nil => rw [hdb] at h4; simp at h4
    | cons hd tl =>
      obtain ⟨k, v⟩ := hd
      unfold register Db.get_pw
      rw [register_users_big db k v tl id (encode s salt) hdb (by omega)]
      exact lookupAssoc_insertAssoc_isSome _ _ _ _
        (lookupAssoc_insertAssoc_isSome _ _ _ _ h)

theorem login_ok_inv (db : Db) (header : List Nat) (b : Bool) (db2 : Db)
    (h : login db header = .ok (b, db2)) :
    db2 = db ∨ ∃ u, (db.get_pw u).isSome ∧ db2 = db.add_session u := by
  unfold login at h
  cases hp : parse_auth header with
  | error e =>
    rw [hp] at h
    replace h : (Except.error (LoginError.ParseAuth e) :
        Except LoginError (Bool × Db)) = .ok (b, db2) := h
    exact absurd h (by simp)
  | ok up =>
    obtain ⟨u, p⟩ := up
    rw [hp] at h
    replace h : (match db.get_pw u with
      | none => (Except.ok (false, db) : Except LoginError (Bool × Db))
      | some encoded =>
        if encoded.verify p = true then .ok (true, db.add_session u)
        else .error .InvalidCredentials) = .ok (b, db2) := h
    cases hg : db.get_pw u with
    | none =>
      rw [hg] at h
      replace h : (Except.ok (false, db) :
          Except LoginError (Bool × Db)) = .ok (b, db2) := h
      simp only [Except.ok.injEq, Prod.mk.injEq] at h
      exact Or.inl h.2.symm
    | some enc =>
      rw [hg] at h
      replace h : (if enc.verify p = true then
          (Except.ok (true, db.add_session u) : Except LoginError (Bool × Db))
        else .error .InvalidCredentials) = .ok (b, db2) := h
      cases hv : enc.verify p with
      | true =>
        rw [hv] at h
        simp only [if_true, Except.ok.injEq, Prod.mk.injEq] at h
        exact Or.inr ⟨u, by rw [hg]; rfl, h.2.symm⟩
      | false =>
        rw [hv] at h
        simp at h

theorem logout_ok_inv (db : Db) (header : List Nat) (db2 : Db)
    (h : logout db header = .ok db2) : ∃ u, db2 = db.remove_session u := by
  unfold logout at h
  cases hp : parse_auth header with
  | error e =>
    rw [hp] at h
    replace h : (Except.error e : Except ParseAuthError Db) = .ok db2 := h
    exact absurd h (by simp)
  | ok up =>
    obtain ⟨u, p⟩ := up
    rw [hp] at h
    replace h : (Except.ok (db.remove_session u) :
        Except ParseAuthError Db) = .ok db2 := h
    exact ⟨u, (Except.ok.inj h).symm⟩

theorem sessionsRegistered_step (db : Db) (op : DomainOp)
    (h : SessionsRegistered db) : SessionsRegistered (domainStep db op) := by
  cases op with
  | regOp id pw salt =>
    show SessionsRegistered (register db id pw salt)
    intro j hj
    have hj2 : db.has_session j = true := hj
    exact get_pw_register_isSome db id pw salt j (h j hj2)
  | authOp header =>
    cases hl : login db header with
    | error e =>
      intro j hj
      have hstep : domainStep db (.authOp header) = db := by
        simp only [domainStep, hl]
      rw [hstep] at hj ⊢
      exact h j hj
    | ok res =>
      obtain ⟨b, db2⟩ := res
      have hstep : domainStep db (.authOp header) = db2 := by
        simp only [domainStep, hl]
      rw [hstep]
      rcases login_ok_inv db header b db2 hl with rfl | ⟨u, hu, rfl⟩
      · exact h
      · intro j hj
        have hj2 : j ∈ (db.add_session u).sessions := of_decide_eq_true hj
        rcases mem_add_session_cases db u j hj2 with h1 | hmem
        · subst h1
          rw [get_pw_add_session]
          exact hu
        · rw [get_pw_add_session]
          exact h j (decide_eq_true hmem)
  | deauthOp header =>
    cases hl : logout db header with
    | error e =>
      intro j hj
      have hstep : domainStep db (.deauthOp header) = db := by
        simp only [domainStep, hl]
      rw [hstep] at hj ⊢
      exact h j hj
    | ok db2 =>
      have hstep : domainStep db (.deauthOp header) = db2 := by
        simp only [domainStep, hl]
      rw [hstep]
      obtain ⟨u, rfl⟩ := logout_ok_inv db header db2 hl
      intro j hj
      have hj2 : j ∈ (db.remove_session u).sessions := of_decide_eq_true hj
      have hmem := mem_remove_session db u j hj2
      have hget : (db.remove_session u).get_pw j = db.get_pw j := rfl
      rw [hget]
      exact h j (decide_eq_true hmem)
  | checkOp id => exact h

theorem sessionsRegistered_foldl :
    ∀ (ops : List DomainOp) (db : Db), SessionsRegistered db →
      SessionsRegistered (ops.foldl domainStep db)
  | [], _, h => h
  | op :: rest, db, h =>
    sessionsRegistered_foldl rest _ (sessionsRegistered_step db op h)

/-- C5: after any finite sequence of Domain Operations from a fresh store,
every identity with an open session (`is_authorized` true) has a credential
in the Credential Table (invariant I1).  Every prefix of a sequence is itself
a sequence, so this covers the invariant after every step. -/
theorem C5_sessions_have_credentials (ops : List DomainOp) (id : List Nat)
    (h : (runOps ops).has_session id = true) :
    ((runOps ops).get_pw id).isSome := by
  have hinit : SessionsRegistered init_db := by
    intro j hj
    simp [init_db, Db.has_session] at hj
  exact sessionsRegistered_foldl ops init_db hinit id h

/-- Witness for C5 on the two-step run registering and authenticating
`("bob", "x")`. -/
theorem C5_sessions_have_credentials_witness :
    (runOps [.regOp [98, 111, 98] [120] 0,
        .authOp (auth_header [98, 111, 98] [120])]).has_session [98, 111, 98]
      = true ∧
    ((runOps [.regOp [98, 111, 98] [120] 0,
        .authOp (auth_header [98, 111, 98] [120])]).get_pw
      [98, 111, 98]).isSome :=
  ⟨rfl, C5_sessions_have_credentials
    [.regOp [98, 111, 98] [120] 0, .authOp (auth_header [98, 111, 98] [120])]
    [98, 111, 98] rfl⟩

end ModelTesting
